import Mathlib

/-!
Formal model of the asebiten Go animation library.

The development shallowly embeds the package's two revisions of the playback
state machine and the sprite-sheet ingestion code:

* the older animation file (called part 000 below) with its integer
  millisecond accumulator: the Animation structure, NewAnimation, Clone,
  Pause, Resume, Toggle, Restart, SetTag, OnEnd and the per-animation Update
  method;
* the newer animation file (part 001): the SetFrame method, modelled on a
  structure Animation2 carrying the fields SetFrame reads and writes;
* aseprite.go: the tag-table ingestion helpers loadNoTags and loadWithTags
  together with the direction transforms reverse and pingpong.

Modelling conventions:
* Go maps become total functions with the Go zero-value default (a missing
  tag yields the empty frame list, a missing callback yields none); a
  possibly-nil map argument becomes an Option of such a function.
* Opaque image pointers become integer identifiers; the ingestion code keys
  its image cache by frame index, so the frame index itself serves as the
  identifier.
* Go callbacks mutate the animation through its exported API; they are
  defunctionalized as the CbCmd command language interpreted by runCb.
* Go panics (out-of-range slice indexing) and returned error values are kept
  distinct by the GoResult type.
* The unbounded for-loop inside Animation.Update is given an explicit fuel
  parameter; running out of fuel returns the outer none, which never happens
  for terminating executions (the loop in the source can genuinely diverge
  when a frame duration is zero, and the model reflects that).
* The global clock variable DeltaMillis read by the Go Update method is
  passed explicitly as the delta argument.
-/

namespace Asebiten

/-- Outcome of running a piece of Go code: a normal result, a returned
non-nil error value, or a runtime panic. -/
inductive GoResult (α : Type) where
  | ok (val : α)
  | err (msg : String)
  | panics
deriving DecidableEq

/-- Frame from the older animation file: an opaque image reference plus its
display duration in milliseconds (int64 in the source). -/
structure Frame where
  Image : Int
  DurationMillis : Int
deriving DecidableEq

/-- Command language for user callbacks: the exported mutating API of the
older animation file that a callback body may invoke on the animation it
receives (the file has no SetFrame). skip is the callback that does
nothing; seq sequences two commands. -/
inductive CbCmd where
  | skip
  | pause
  | resume
  | toggle
  | restart
  | setTag (tag : String)
  | seq (c1 c2 : CbCmd)
deriving DecidableEq

/-- The Animation structure of the older animation file. The Source field
(untyped raw JSON, opaque to all the modelled code) is omitted. -/
structure Animation where
  paused : Bool
  framesByTagName : String → List Frame
  currTag : String
  currFrame : Nat
  accumMillis : Int
  callbacks : String → Option CbCmd

/-- NewAnimation: nil map in, nil animation out; otherwise all fields are
the given map, an empty callback table and Go zero values. -/
def NewAnimation (anim : Option (String → List Frame)) : Option Animation :=
  match anim with
  | none => none
  | some m =>
      some { paused := false
             framesByTagName := m
             currTag := ""
             currFrame := 0
             accumMillis := 0
             callbacks := fun _ => none }

/-- Clone: shares the frame table, shallow-copies the callback table (a
function value in the model), copies tag, frame and paused, and leaves
accumMillis at its Go zero value. -/
def Animation.Clone (a : Animation) : Animation :=
  { framesByTagName := a.framesByTagName
    callbacks := a.callbacks
    currTag := a.currTag
    currFrame := a.currFrame
    paused := a.paused
    accumMillis := 0 }

/-- Pause sets the paused flag. -/
def Animation.Pause (a : Animation) : Animation :=
  { a with paused := true }

/-- Resume clears the paused flag. -/
def Animation.Resume (a : Animation) : Animation :=
  { a with paused := false }

/-- Toggle flips the paused flag. -/
def Animation.Toggle (a : Animation) : Animation :=
  { a with paused := !a.paused }

/-- Restart resets the current frame index to 0 and touches nothing else. -/
def Animation.Restart (a : Animation) : Animation :=
  { a with currFrame := 0 }

/-- SetTag: if the tag differs from the current one the frame index is reset
to 0; the current tag is set unconditionally. -/
def Animation.SetTag (a : Animation) (tag : String) : Animation :=
  if a.currTag ≠ tag then { a with currFrame := 0, currTag := tag }
  else { a with currTag := tag }

/-- OnEnd registers (or, with none, clears) the callback for a tag. -/
def Animation.OnEnd (a : Animation) (tag : String) (cb : Option CbCmd) :
    Animation :=
  { a with callbacks := fun t => if t = tag then cb else a.callbacks t }

/-- Interpreter for the callback command language. -/
def runCb : CbCmd → Animation → Animation
  | .skip, a => a
  | .pause, a => a.Pause
  | .resume, a => a.Resume
  | .toggle, a => a.Toggle
  | .restart, a => a.Restart
  | .setTag t, a => a.SetTag t
  | .seq c1 c2, a => runCb c2 (runCb c1 a)

/-- Observation record for one iteration of the Update loop: the current tag
at the moment the frame index was advanced, the frame index right after the
advance, whether a callback was registered for that tag at that moment, and
whether the loop body invoked a callback in this iteration. -/
structure IterEv where
  tagAt : String
  idxAfter : Nat
  hadCb : Bool
  fired : Bool
deriving DecidableEq

/-- Prepend an iteration event onto the trace of a normal loop result. -/
def consEv (ev : IterEv) :
    GoResult (Animation × List IterEv) → GoResult (Animation × List IterEv)
  | .ok (a, evs) => .ok (a, ev :: evs)
  | .err m => .err m
  | .panics => .panics

/-- One execution of the Update loop body up to the frame advance: subtract
the current frame duration from the accumulator and step the frame index
modulo the current sequence length. -/
def advanceFrame (a : Animation) (f : Frame) : Animation :=
  { a with
    accumMillis := a.accumMillis - f.DurationMillis
    currFrame := (a.currFrame + 1) % (a.framesByTagName a.currTag).length }

/-- The for-loop of the Update method of the older animation file, with
explicit fuel. Outer none: out of fuel. GoResult.panics: the slice indexing
of framesByTagName at currTag/currFrame is out of range. A normal exit
returns the final state together with the trace of loop iterations. -/
def updateLoop : Nat → Animation → Option (GoResult (Animation × List IterEv))
  | 0, _ => none
  | fuel + 1, a =>
      match (a.framesByTagName a.currTag).get? a.currFrame with
      | none => some .panics
      | some f =>
          if a.accumMillis > f.DurationMillis then
            let a1 := advanceFrame a f
            let cb := a1.callbacks a1.currTag
            if a1.currFrame != 0 || cb.isNone then
              (updateLoop fuel a1).map
                (consEv ⟨a1.currTag, a1.currFrame, cb.isSome, false⟩)
            else
              let a2 := match cb with
                | some c => runCb c a1
                | none => a1
              (updateLoop fuel a2).map
                (consEv ⟨a1.currTag, a1.currFrame, cb.isSome, true⟩)
          else some (.ok (a, []))

/-- The Update method of the older animation file: immediate return when
paused, otherwise add the elapsed delta (the global DeltaMillis, passed
explicitly) to the accumulator and run the frame-advance loop. -/
def Animation.Update (a : Animation) (delta : Int) (fuel : Nat) :
    Option (GoResult (Animation × List IterEv)) :=
  if a.paused then some (.ok (a, []))
  else updateLoop fuel { a with accumMillis := a.accumMillis + delta }

/-- AniFrame from the newer animation file and aseprite.go: original frame
index, opaque image reference (an integer identifier in the model) and the
display duration. The SourceRect field, which none of the modelled code
writes or reads, is omitted. -/
structure AniFrame where
  FrameIdx : Int
  Image : Int
  DurationMillis : Int
deriving DecidableEq

/-- The Animation structure of the newer animation file, restricted to the
fields its SetFrame method reads or writes (plus paused and the callback
table key set, carried along unchanged); the float-valued elapsedMillis,
the gpuFrame image and the Source sheet are omitted as opaque to
SetFrame. -/
structure Animation2 where
  paused : Bool
  currTag : String
  currFrame : Int
  FramesByTagName : String → List AniFrame
  needsDraw : Bool

/-- SetFrame from the newer animation file: reject an index outside the
current tag's sequence bounds with an error and no state change; otherwise
mark the animation for redraw and set the frame index. The pair returns the
Go error value (none for nil) next to the post-call receiver state. -/
def Animation2.SetFrame (a : Animation2) (idx : Int) :
    Option String × Animation2 :=
  if idx < 0 ∨ ((a.FramesByTagName a.currTag).length : Int) ≤ idx then
    (some "frame index out of bounds", a)
  else (none, { a with needsDraw := true, currFrame := idx })

/-- FrameTag metadata record from aseprite.go (the Color field is unused by
the modelled code and omitted). -/
structure FrameTag where
  Name : String
  From : Int
  To : Int
  Direction : String
deriving DecidableEq

/-- The per-frame JSON record from aseprite.go, restricted to the duration;
the source rectangle only feeds the opaque subimage constructor, which the
model replaces by the frame index. -/
structure SheetFrame where
  Duration : Int
deriving DecidableEq

/-- Sheet metadata: the declared frame tags (remaining fields are consumed
before ingestion reaches the modelled code). -/
structure SheetMeta where
  FrameTags : List FrameTag

/-- SpriteSheet as consumed by loadNoTags and loadWithTags. -/
structure SpriteSheet where
  Frames : List SheetFrame
  Meta : SheetMeta

/-- loadNoTags: build the implicit empty tag holding every frame in order,
each with its own image (identified by its frame index) and its duration.
The Go function's error return is always nil and is dropped here. -/
def loadNoTags (sheet : SpriteSheet) : String → List AniFrame :=
  fun t =>
    if t = "" then
      sheet.Frames.enum.map fun p =>
        { FrameIdx := (p.1 : Int), Image := (p.1 : Int),
          DurationMillis := p.2.Duration }
    else []

/-- The in-place slice reversal helper of aseprite.go, as the list reversal
it computes. -/
def reverse (frames : List AniFrame) : List AniFrame :=
  frames.reverse

/-- The descending append loop of the pingpong helper: indices from i down
to 1 of the original slice. -/
def pingpongTail (frames : List AniFrame) : Nat → List AniFrame
  | 0 => []
  | i + 1 => frames.getD (i + 1) ⟨0, 0, 0⟩ :: pingpongTail frames i

/-- pingpong from aseprite.go: the original frames followed by the interior
frames in descending index order (the loop runs i from length-2 down
to 1). -/
def pingpong (frames : List AniFrame) : List AniFrame :=
  frames ++ pingpongTail frames (frames.length - 2)

/-- The direction switch at the end of each tag's pass in loadWithTags.
Note the source composes reverse after pingpong for pingpong_reverse. -/
def applyDirection (dir : String) (frames : List AniFrame) : List AniFrame :=
  if dir = "reverse" then reverse frames
  else if dir = "pingpong" then pingpong frames
  else if dir = "pingpong_reverse" then reverse (pingpong frames)
  else frames

/-- The inner frame-collection loop of loadWithTags for one tag: n more
iterations starting at sheet-frame index i, panicking (as the Go slice
indexing does) when an index falls outside the frame list. The image cache
keyed by frame index is modelled by using the index itself as the image
identifier. -/
def collectRange (frames : List SheetFrame) (i : Int) :
    Nat → GoResult (List AniFrame)
  | 0 => .ok []
  | n + 1 =>
      if h : 0 ≤ i ∧ i.toNat < frames.length then
        match collectRange frames (i + 1) n with
        | .ok rest =>
            .ok ({ FrameIdx := i, Image := i,
                   DurationMillis := (frames.get ⟨i.toNat, h.2⟩).Duration }
                 :: rest)
        | r => r
      else .panics

/-- The outer tag loop of loadWithTags: append each tag's collected range to
its (possibly already populated) entry, then apply the direction switch to
that entry. A panic inside a tag's range aborts the whole load with no
table. -/
def processTags (frames : List SheetFrame) :
    List FrameTag → (String → List AniFrame) →
    GoResult (String → List AniFrame)
  | [], m => .ok m
  | t :: rest, m =>
      match collectRange frames t.From (t.To - t.From + 1).toNat with
      | .ok newFrames =>
          let m1 : String → List AniFrame :=
            fun s => if s = t.Name then m t.Name ++ newFrames else m s
          let m2 : String → List AniFrame :=
            fun s =>
              if s = t.Name then applyDirection t.Direction (m1 t.Name)
              else m1 s
          processTags frames rest m2
      | .err e => .err e
      | .panics => .panics

/-- loadWithTags: start from the untagged pass and process every declared
tag in order. -/
def loadWithTags (sheet : SpriteSheet) :
    GoResult (String → List AniFrame) :=
  processTags sheet.Frames sheet.Meta.FrameTags (loadNoTags sheet)

/-! Concrete instances used by witnesses and counterexamples. -/

/-- Four distinguishable frames for exercising the direction transforms. -/
def frA : AniFrame := ⟨0, 0, 10⟩

/-- Second sample frame. -/
def frB : AniFrame := ⟨1, 1, 10⟩

/-- Third sample frame. -/
def frC : AniFrame := ⟨2, 2, 10⟩

/-- Fourth sample frame. -/
def frD : AniFrame := ⟨3, 3, 10⟩

/-- A single-tag table with two ten-millisecond frames. -/
def demoMap : String → List Frame := fun _ => [⟨0, 10⟩, ⟨1, 10⟩]

/-- Running animation over demoMap with a do-nothing callback registered
for every tag. -/
def demoA : Animation :=
  { paused := false, framesByTagName := demoMap, currTag := "",
    currFrame := 0, accumMillis := 0, callbacks := fun _ => some .skip }

/-- State of demoA after consuming 25 milliseconds: one full wrap plus five
leftover milliseconds. -/
def demoPost : Animation := { demoA with accumMillis := 5 }

/-- Iteration trace of that update: one non-wrapping advance, then a wrap
that fires the registered callback. -/
def demoEvs : List IterEv := [⟨"", 1, true, false⟩, ⟨"", 0, true, true⟩]

/-- A single-tag table with one frame lasting 100 milliseconds. -/
def c3Map : String → List Frame := fun _ => [⟨0, 100⟩]

/-- Fresh animation over c3Map with no callbacks. -/
def c3A : Animation :=
  { paused := false, framesByTagName := c3Map, currTag := "",
    currFrame := 0, accumMillis := 0, callbacks := fun _ => none }

/-- c3A after an update of exactly one frame duration: the accumulator
lands on the duration itself because the loop condition is strict. -/
def c3Post : Animation := { c3A with accumMillis := 100 }

/-- c3A after an update of 40 milliseconds. -/
def c3Mid : Animation := { c3A with accumMillis := 40 }

/-- A tag whose first frame lasts 1 millisecond and second 100. -/
def c5Map : String → List Frame := fun _ => [⟨0, 1⟩, ⟨1, 100⟩]

/-- Animation sitting on the long second frame of c5Map with 50 leftover
milliseconds, legal there, but more than the first frame's duration. -/
def c5A : Animation :=
  { paused := false, framesByTagName := c5Map, currTag := "",
    currFrame := 1, accumMillis := 50, callbacks := fun _ => none }

/-- Where restarting c5A and then updating with a zero delta actually
lands: the 50 banked milliseconds immediately step past frame 0. -/
def c5Post : Animation := { c5A with currFrame := 1, accumMillis := 49 }

/-- Animation over c5Map whose accumulator does not exceed the first
frame's duration. -/
def c5W : Animation :=
  { paused := false, framesByTagName := c5Map, currTag := "",
    currFrame := 1, accumMillis := 1, callbacks := fun _ => none }

/-- A tag table whose single frame has duration zero. -/
def c6Map : String → List Frame := fun _ => [⟨0, 0⟩]

/-- Animation over the zero-duration table. -/
def c6A : Animation :=
  { paused := false, framesByTagName := c6Map, currTag := "",
    currFrame := 0, accumMillis := 0, callbacks := fun _ => none }

/-- c6A right after a 5-millisecond delta is added: the loop state that
reproduces itself forever. -/
def c6S : Animation := { c6A with accumMillis := 5 }

/-- Animation with an all-positive-duration table, for exercising the
termination bound. -/
def c6W : Animation :=
  { paused := false, framesByTagName := fun _ => [⟨0, 10⟩], currTag := "",
    currFrame := 0, accumMillis := 0, callbacks := fun _ => none }

/-- Source animation for the clone experiment: mid-playback state over
demoMap. -/
def c7A : Animation :=
  { paused := false, framesByTagName := demoMap, currTag := "",
    currFrame := 1, accumMillis := 7, callbacks := fun _ => none }

/-- Result of advancing the clone of c7A by 15 milliseconds. -/
def c7Post : Animation :=
  { paused := false, framesByTagName := demoMap, currTag := "",
    currFrame := 0, accumMillis := 5, callbacks := fun _ => none }

/-- Two tags: a one-frame 10-millisecond run cycle and a three-frame
100-millisecond walk cycle. -/
def c8Map : String → List Frame :=
  fun t =>
    if t = "run" then [⟨0, 10⟩]
    else if t = "walk" then [⟨1, 100⟩, ⟨2, 100⟩, ⟨3, 100⟩] else []

/-- Callback table that redirects the animation to the walk tag whenever
the run tag completes. -/
def c8Cbs : String → Option CbCmd :=
  fun t => if t = "run" then some (.setTag "walk") else none

/-- Animation starting on the run tag with the redirecting callback. -/
def c8A : Animation :=
  { paused := false, framesByTagName := c8Map, currTag := "run",
    currFrame := 0, accumMillis := 0, callbacks := c8Cbs }

/-- Where a 250-millisecond update of c8A lands: the callback retargeted
playback to walk and the remaining time was consumed at walk's frame
durations. -/
def c8Post : Animation :=
  { paused := false, framesByTagName := c8Map, currTag := "walk",
    currFrame := 2, accumMillis := 40, callbacks := c8Cbs }

/-- Iteration trace of that update: the run wrap fires the callback, then
two non-wrapping advances through walk frames with no callback. -/
def c8Evs : List IterEv :=
  [⟨"run", 0, true, true⟩, ⟨"walk", 1, false, false⟩,
   ⟨"walk", 2, false, false⟩]

/-- Animation (newer revision) with a two-frame sequence under every
tag. -/
def a2demo : Animation2 :=
  { paused := false, currTag := "", currFrame := 0,
    FramesByTagName := fun _ => [⟨0, 0, 10⟩, ⟨1, 1, 10⟩],
    needsDraw := false }

/-- A sheet with two frames and one declared tag whose range 0..5 runs past
the end of the frame list. -/
def badSheet : SpriteSheet :=
  ⟨[⟨10⟩, ⟨10⟩], ⟨[⟨"x", 0, 5, "forward"⟩]⟩⟩

end Asebiten

namespace Asebiten

/-! Helper lemmas about the playback state machine. -/

/-- No callback command changes the frame table. -/
theorem runCb_framesByTagName (c : CbCmd) (a : Animation) :
    (runCb c a).framesByTagName = a.framesByTagName := by
  induction c generalizing a with
  | seq c1 c2 ih1 ih2 => simp [runCb, ih1, ih2]
  | setTag t =>
      simp only [runCb, Animation.SetTag]
      split <;> rfl
  | skip => rfl
  | pause => rfl
  | resume => rfl
  | toggle => rfl
  | restart => rfl

/-- No callback command changes the accumulated milliseconds. -/
theorem runCb_accumMillis (c : CbCmd) (a : Animation) :
    (runCb c a).accumMillis = a.accumMillis := by
  induction c generalizing a with
  | seq c1 c2 ih1 ih2 => simp [runCb, ih1, ih2]
  | setTag t =>
      simp only [runCb, Animation.SetTag]
      split <;> rfl
  | skip => rfl
  | pause => rfl
  | resume => rfl
  | toggle => rfl
  | restart => rfl

/-- A normal exit of the update loop leaves the frame table untouched. -/
theorem updateLoop_frames :
    ∀ (fuel : Nat) (a r : Animation) (evs : List IterEv),
      updateLoop fuel a = some (.ok (r, evs)) →
      r.framesByTagName = a.framesByTagName := by
  intro fuel
  induction fuel with
  | zero => intro a r evs h; simp [updateLoop] at h
  | succ n ih =>
      intro a r evs h
      simp only [updateLoop] at h
      split at h
      · simp at h
      · split at h
        · split at h
          · obtain ⟨g, hg, hcons⟩ := Option.map_eq_some'.mp h
            cases g with
            | ok p =>
                obtain ⟨r', evs'⟩ := p
                simp only [consEv] at hcons
                cases hcons
                exact (ih _ _ _ hg).trans rfl
            | err m => simp [consEv] at hcons
            | panics => simp [consEv] at hcons
          · obtain ⟨g, hg, hcons⟩ := Option.map_eq_some'.mp h
            cases g with
            | ok p =>
                obtain ⟨r', evs'⟩ := p
                simp only [consEv] at hcons
                cases hcons
                have := ih _ _ _ hg
                rw [this]
                split
                · rw [runCb_framesByTagName]; rfl
                · rfl
            | err m => simp [consEv] at hcons
            | panics => simp [consEv] at hcons
        · cases h
          rfl

/-- A normal exit of the update loop leaves the current frame index inside
the bounds of the current tag's sequence (the exit test itself indexes the
sequence, so a normal exit certifies the bound). -/
theorem updateLoop_frame_lt :
    ∀ (fuel : Nat) (a r : Animation) (evs : List IterEv),
      updateLoop fuel a = some (.ok (r, evs)) →
      r.currFrame < (r.framesByTagName r.currTag).length := by
  intro fuel
  induction fuel with
  | zero => intro a r evs h; simp [updateLoop] at h
  | succ n ih =>
      intro a r evs h
      simp only [updateLoop] at h
      split at h
      · simp at h
      · split at h
        · split at h
          · obtain ⟨g, hg, hcons⟩ := Option.map_eq_some'.mp h
            cases g with
            | ok p =>
                obtain ⟨r', evs'⟩ := p
                simp only [consEv] at hcons
                cases hcons
                exact ih _ _ _ hg
            | err m => simp [consEv] at hcons
            | panics => simp [consEv] at hcons
          · obtain ⟨g, hg, hcons⟩ := Option.map_eq_some'.mp h
            cases g with
            | ok p =>
                obtain ⟨r', evs'⟩ := p
                simp only [consEv] at hcons
                cases hcons
                exact ih _ _ _ hg
            | err m => simp [consEv] at hcons
            | panics => simp [consEv] at hcons
        · cases h
          rename_i f heq hcond
          obtain ⟨hlt, -⟩ := List.get?_eq_some.mp heq
          exact hlt

/-- A normal exit of the update loop keeps the accumulator nonnegative and
never above the duration of the final current frame (the exit condition is
a strict comparison, so equality is reachable). -/
theorem updateLoop_accum_bound :
    ∀ (fuel : Nat) (a r : Animation) (evs : List IterEv),
      0 ≤ a.accumMillis →
      updateLoop fuel a = some (.ok (r, evs)) →
      0 ≤ r.accumMillis ∧
      r.accumMillis ≤
        ((r.framesByTagName r.currTag).getD r.currFrame ⟨0, 0⟩).DurationMillis := by
  intro fuel
  induction fuel with
  | zero => intro a r evs h0 h; simp [updateLoop] at h
  | succ n ih =>
      intro a r evs h0 h
      simp only [updateLoop] at h
      split at h
      · simp at h
      · rename_i f heq
        split at h
        · rename_i hcond
          split at h
          · obtain ⟨g, hg, hcons⟩ := Option.map_eq_some'.mp h
            cases g with
            | ok p =>
                obtain ⟨r', evs'⟩ := p
                simp only [consEv] at hcons
                cases hcons
                refine ih _ _ _ ?_ hg
                show 0 ≤ a.accumMillis - f.DurationMillis
                omega
            | err m => simp [consEv] at hcons
            | panics => simp [consEv] at hcons
          · obtain ⟨g, hg, hcons⟩ := Option.map_eq_some'.mp h
            cases g with
            | ok p =>
                obtain ⟨r', evs'⟩ := p
                simp only [consEv] at hcons
                cases hcons
                refine ih _ _ _ ?_ hg
                split
                · rw [runCb_accumMillis]
                  show 0 ≤ a.accumMillis - f.DurationMillis
                  omega
                · show 0 ≤ a.accumMillis - f.DurationMillis
                  omega
            | err m => simp [consEv] at hcons
            | panics => simp [consEv] at hcons
        · cases h
          rename_i hcond
          constructor
          · exact h0
          · rw [List.get?_eq_getElem?] at heq
            rw [List.getD_eq_getElem?_getD, heq]
            simpa using le_of_not_lt hcond

/-- In every iteration of the update loop, a callback is invoked exactly
when the frame index has just wrapped to 0 and a callback was registered
for the tag current at that moment. -/
theorem updateLoop_fired :
    ∀ (fuel : Nat) (a r : Animation) (evs : List IterEv),
      updateLoop fuel a = some (.ok (r, evs)) →
      ∀ ev ∈ evs, (ev.fired = true ↔ ev.idxAfter = 0 ∧ ev.hadCb = true) := by
  intro fuel
  induction fuel with
  | zero => intro a r evs h; simp [updateLoop] at h
  | succ n ih =>
      intro a r evs h
      simp only [updateLoop] at h
      split at h
      · simp at h
      · split at h
        · split at h
          · rename_i hcond
            obtain ⟨g, hg, hcons⟩ := Option.map_eq_some'.mp h
            cases g with
            | ok p =>
                obtain ⟨r', evs'⟩ := p
                simp only [consEv] at hcons
                cases hcons
                intro ev hev
                rcases List.mem_cons.mp hev with hev | hev
                · subst hev
                  simp only [Bool.or_eq_true, bne_iff_ne, ne_eq,
                    Option.isNone_iff_eq_none] at hcond
                  simp only [IterEv.fired, IterEv.idxAfter, IterEv.hadCb]
                  constructor
                  · intro hf; exact absurd hf (by simp)
                  · rintro ⟨h1, h2⟩
                    rcases hcond with hc | hc
                    · exact absurd h1 hc
                    · rw [hc] at h2; simp at h2
                · exact ih _ _ _ hg ev hev
            | err m => simp [consEv] at hcons
            | panics => simp [consEv] at hcons
          · rename_i hcond
            obtain ⟨g, hg, hcons⟩ := Option.map_eq_some'.mp h
            cases g with
            | ok p =>
                obtain ⟨r', evs'⟩ := p
                simp only [consEv] at hcons
                cases hcons
                intro ev hev
                rcases List.mem_cons.mp hev with hev | hev
                · subst hev
                  simp only [Bool.or_eq_true, bne_iff_ne, ne_eq,
                    Option.isNone_iff_eq_none, not_or] at hcond
                  push_neg at hcond
                  simp only [IterEv.fired, IterEv.idxAfter, IterEv.hadCb]
                  constructor
                  · intro _
                    refine ⟨hcond.1, ?_⟩
                    rw [Option.isSome_iff_ne_none]
                    simpa using hcond.2
                  · intro _; trivial
                · exact ih _ _ _ hg ev hev
            | err m => simp [consEv] at hcons
            | panics => simp [consEv] at hcons
        · cases h
          intro ev hev
          simp at hev

/-- When every frame duration in the tag table is positive, the update loop
cannot run out of fuel once the fuel exceeds the accumulator: each
iteration removes at least one millisecond from the accumulator and the
loop only continues while the accumulator exceeds a positive duration. -/
theorem updateLoop_isSome :
    ∀ (fuel : Nat) (a : Animation),
      (∀ t f, f ∈ a.framesByTagName t → 0 < f.DurationMillis) →
      a.accumMillis.toNat < fuel →
      (updateLoop fuel a).isSome := by
  intro fuel
  induction fuel with
  | zero => intro a hpos hf; omega
  | succ n ih =>
      intro a hpos hf
      simp only [updateLoop]
      split
      · rfl
      · rename_i f heq
        split
        · rename_i hcond
          have hdur : 0 < f.DurationMillis := hpos _ _ (List.get?_mem heq)
          split
          · rw [Option.isSome_map']
            apply ih
            · intro t g hg; exact hpos t g hg
            · show (a.accumMillis - f.DurationMillis).toNat < n
              omega
          · rw [Option.isSome_map']
            split
            · rename_i c hcb
              apply ih
              · intro t g hg
                rw [runCb_framesByTagName] at hg
                exact hpos t g hg
              · show (runCb c (advanceFrame a f)).accumMillis.toNat < n
                rw [runCb_accumMillis]
                show (a.accumMillis - f.DurationMillis).toNat < n
                omega
            · apply ih
              · intro t g hg; exact hpos t g hg
              · show (a.accumMillis - f.DurationMillis).toNat < n
                omega
        · rfl

/-- With at least one unit of fuel, the update loop exits immediately,
without touching the state, whenever the accumulator does not exceed the
current frame's duration. -/
theorem updateLoop_exit (fuel : Nat) (a : Animation) (f : Frame)
    (hget : (a.framesByTagName a.currTag).get? a.currFrame = some f)
    (hle : a.accumMillis ≤ f.DurationMillis) :
    updateLoop (fuel + 1) a = some (.ok (a, [])) := by
  simp only [updateLoop]
  rw [hget]
  exact if_neg (not_lt.mpr hle)

/-! Helper lemmas about the ingestion loops. -/

/-- The range-collection loop succeeds when the whole index window lies
inside the frame list. -/
theorem collectRange_ok :
    ∀ (n : Nat) (frames : List SheetFrame) (i : Int),
      0 ≤ i → i.toNat + n ≤ frames.length →
      ∃ l, collectRange frames i n = .ok l := by
  intro n
  induction n with
  | zero => intro frames i h0 hle; exact ⟨[], rfl⟩
  | succ m ih =>
      intro frames i h0 hle
      obtain ⟨l, hl⟩ := ih frames (i + 1) (by omega) (by omega)
      refine ⟨{ FrameIdx := i, Image := i,
                DurationMillis :=
                  (frames.get ⟨i.toNat, by omega⟩).Duration } :: l, ?_⟩
      rw [collectRange, dif_pos ⟨h0, by omega⟩, hl]

/-- The range-collection loop panics at once on a negative start index
when it has at least one iteration to run. -/
theorem collectRange_panics_neg :
    ∀ (n : Nat) (frames : List SheetFrame) (i : Int),
      i < 0 → 1 ≤ n → collectRange frames i n = .panics := by
  intro n frames i hneg hn
  cases n with
  | zero => omega
  | succ m =>
      rw [collectRange, dif_neg]
      intro hc
      omega

/-- The range-collection loop panics when its index window, starting in
bounds or not, runs past the end of the frame list. -/
theorem collectRange_panics_high :
    ∀ (n : Nat) (frames : List SheetFrame) (i : Int),
      1 ≤ n → 0 ≤ i → frames.length < i.toNat + n →
      collectRange frames i n = .panics := by
  intro n
  induction n with
  | zero => intro frames i h1; omega
  | succ m ih =>
      intro frames i h1 h0 hhigh
      by_cases hlt : i.toNat < frames.length
      · rcases Nat.eq_zero_or_pos m with hm | hm
        · omega
        · rw [collectRange, dif_pos ⟨h0, hlt⟩,
            ih frames (i + 1) hm (by omega) (by omega)]
      · rw [collectRange, dif_neg]
        intro hc
        exact hlt hc.2

/-- The range-collection loop never returns a Go error value. -/
theorem collectRange_not_err :
    ∀ (n : Nat) (frames : List SheetFrame) (i : Int) (msg : String),
      collectRange frames i n = .err msg → False := by
  intro n
  induction n with
  | zero => intro frames i msg h; simp [collectRange] at h
  | succ m ih =>
      intro frames i msg h
      rw [collectRange] at h
      split at h
      · split at h
        · simp at h
        · exact ih frames (i + 1) msg h
      · simp at h

/-- The tag loop returns a panic as soon as any declared tag has a
non-empty range reaching outside the frame list, regardless of the table
accumulated so far. -/
theorem processTags_panics :
    ∀ (tags : List FrameTag) (frames : List SheetFrame)
      (m : String → List AniFrame),
      (∃ t ∈ tags, t.From ≤ t.To ∧
        (t.From < 0 ∨ (frames.length : Int) ≤ t.To)) →
      processTags frames tags m = .panics := by
  intro tags
  induction tags with
  | nil => intro frames m h; simp at h
  | cons t rest ih =>
      intro frames m h
      obtain ⟨u, hu, hle, hbad⟩ := h
      rcases List.mem_cons.mp hu with hu | hu
      · subst hu
        have hpanic : collectRange frames u.From (u.To - u.From + 1).toNat
            = .panics := by
          by_cases hneg : u.From < 0
          · exact collectRange_panics_neg _ _ _ hneg (by omega)
          · rcases hbad with hbad | hbad
            · omega
            · exact collectRange_panics_high _ _ _ (by omega) (by omega)
                (by omega)
        rw [processTags, hpanic]
      · cases hc : collectRange frames t.From (t.To - t.From + 1).toNat with
        | ok l =>
            rw [processTags, hc]
            exact ih frames _ ⟨u, hu, hle, hbad⟩
        | err e => exact absurd hc (fun hx => collectRange_not_err _ _ _ _ hx)
        | panics => rw [processTags, hc]

/-! The claims. -/

/-- C1: in an unpaused Update call that returns normally, the loop invokes
a callback in exactly those iterations whose frame-index advance wrapped to
0 while a callback was registered for the tag current at that moment;
iterations that do not wrap, or wrap with no registered callback, invoke
none. The trace lists iterations in execution order, so each invocation
happens synchronously inside the call, before the remaining accumulated
time is processed. -/
theorem update_fires_iff_wrap :
    ∀ (a : Animation) (delta : Int) (fuel : Nat) (r : Animation)
      (evs : List IterEv),
      a.Update delta fuel = some (.ok (r, evs)) →
      ∀ ev ∈ evs, (ev.fired = true ↔ ev.idxAfter = 0 ∧ ev.hadCb = true) := by
  intro a delta fuel r evs h
  rw [Animation.Update] at h
  split at h
  · cases h
    intro ev hev
    simp at hev
  · exact updateLoop_fired _ _ _ _ h

/-- C1 witness: a 25-millisecond update of demoA performs one non-wrapping
advance and one wrap that fires the registered callback. -/
theorem update_fires_iff_wrap_check :
    ((⟨"", 0, true, true⟩ : IterEv).fired = true ↔
      (⟨"", 0, true, true⟩ : IterEv).idxAfter = 0 ∧
      (⟨"", 0, true, true⟩ : IterEv).hadCb = true) :=
  update_fires_iff_wrap demoA 25 5 demoPost demoEvs (by rfl)
    ⟨"", 0, true, true⟩ (by decide)

/-- C2: evaluation of the direction transforms on four distinct frames.
The pingpong and reverse clauses of the claim hold, but for
pingpong_reverse the source computes reverse after pingpong, yielding
B,C,D,C,B,A instead of the D,C,B,A,B,C that reversing first and then
ping-ponging (the claim's and the Aseprite format's reading) produces. -/
theorem pingpong_reverse_composition :
    pingpong [frA, frB, frC, frD] = [frA, frB, frC, frD, frC, frB] ∧
    reverse [frA, frB, frC, frD] = [frD, frC, frB, frA] ∧
    applyDirection "pingpong_reverse" [frA, frB, frC, frD] =
      [frB, frC, frD, frC, frB, frA] ∧
    pingpong (reverse [frA, frB, frC, frD]) =
      [frD, frC, frB, frA, frB, frC] ∧
    applyDirection "pingpong_reverse" [frA, frB, frC, frD] ≠
      pingpong (reverse [frA, frB, frC, frD]) := by
  decide

/-- C3 counterexample: updating c3A (valid non-empty tag, one positive
100-millisecond frame) by exactly 100 milliseconds leaves the accumulator
equal to the current frame's duration, because the loop condition is
strict; the claimed strict upper bound fails. -/
theorem accum_reaches_duration :
    c3A.paused = false ∧
    (c3A.framesByTagName c3A.currTag).length = 1 ∧
    c3A.Update 100 3 = some (.ok (c3Post, [])) ∧
    c3Post.accumMillis = 100 ∧
    ((c3Post.framesByTagName c3Post.currTag).getD c3Post.currFrame
        ⟨0, 0⟩).DurationMillis = 100 ∧
    ¬ c3Post.accumMillis <
        ((c3Post.framesByTagName c3Post.currTag).getD c3Post.currFrame
          ⟨0, 0⟩).DurationMillis :=
  ⟨rfl, rfl, rfl, rfl, rfl, by decide⟩

/-- C3 (amended): after an unpaused Update call that starts from a
nonnegative accumulator-plus-delta and returns normally, the accumulator is
nonnegative and at most (equality included) the duration of the final
current frame. -/
theorem update_accum_le_duration :
    ∀ (a : Animation) (delta : Int) (fuel : Nat) (r : Animation)
      (evs : List IterEv),
      a.paused = false →
      0 ≤ a.accumMillis + delta →
      a.Update delta fuel = some (.ok (r, evs)) →
      0 ≤ r.accumMillis ∧
      r.accumMillis ≤
        ((r.framesByTagName r.currTag).getD r.currFrame
          ⟨0, 0⟩).DurationMillis := by
  intro a delta fuel r evs hp h0 h
  rw [Animation.Update, if_neg (by simp [hp])] at h
  exact updateLoop_accum_bound fuel _ _ _ h0 h

/-- C3 witness: a 40-millisecond update of c3A lands at 40, inside the
bound. -/
theorem update_accum_le_duration_check :
    0 ≤ c3Mid.accumMillis ∧
    c3Mid.accumMillis ≤
      ((c3Mid.framesByTagName c3Mid.currTag).getD c3Mid.currFrame
        ⟨0, 0⟩).DurationMillis :=
  update_accum_le_duration c3A 40 3 c3Mid [] rfl (by decide) (by rfl)

/-- C4 counterexample: loading badSheet, whose only tag declares the range
0..5 over a two-frame list, ends in a Go panic (out-of-range slice index),
not in a returned format error as the claim states. -/
theorem range_error_is_panic_not_error :
    loadWithTags badSheet = .panics ∧
    ¬ ∃ msg, loadWithTags badSheet = .err msg := by
  refine ⟨by rfl, ?_⟩
  rintro ⟨msg, h⟩
  rw [show loadWithTags badSheet = .panics from rfl] at h
  exact GoResult.noConfusion h

/-- C4 (amended): whenever any declared tag has a non-empty (from ≤ to)
range that reaches outside the frame list, ingestion panics and produces no
tag table; it never reports the violation as an error value. -/
theorem out_of_range_tag_panics :
    ∀ (sheet : SpriteSheet) (t : FrameTag),
      t ∈ sheet.Meta.FrameTags →
      t.From ≤ t.To →
      (t.From < 0 ∨ (sheet.Frames.length : Int) ≤ t.To) →
      loadWithTags sheet = .panics := by
  intro sheet t ht hle hbad
  exact processTags_panics _ _ _ ⟨t, ht, hle, hbad⟩

/-- C4 witness: the amended statement applied to badSheet. -/
theorem out_of_range_tag_panics_check :
    loadWithTags badSheet = .panics :=
  out_of_range_tag_panics badSheet ⟨"x", 0, 5, "forward"⟩ (by decide)
    (by decide) (by decide)

/-- C5 counterexample: restarting c5A keeps its 50 banked milliseconds;
the following zero-delta update then immediately steps past the
1-millisecond frame 0, changing the frame index, so the advance is not a
no-op. -/
theorem restart_then_zero_delta_moves :
    (c5A.Restart).currFrame = 0 ∧
    (c5A.Restart).accumMillis = 50 ∧
    (c5A.Restart).Update 0 3 =
      some (.ok (c5Post, [⟨"", 1, false, false⟩])) ∧
    c5Post.currFrame = 1 :=
  ⟨rfl, rfl, rfl, rfl⟩

/-- C5 (amended): restart resets the frame index to 0 and leaves every
other field unchanged; a subsequent zero-delta advance leaves the state
unchanged provided the retained accumulator does not exceed the duration of
frame 0 of the current tag's sequence. -/
theorem restart_resets_index_only :
    (∀ a : Animation, a.Restart = { a with currFrame := 0 }) ∧
    ∀ (a : Animation) (fuel : Nat) (f : Frame),
      a.paused = false →
      (a.framesByTagName a.currTag).get? 0 = some f →
      a.accumMillis ≤ f.DurationMillis →
      (a.Restart).Update 0 (fuel + 1) = some (.ok (a.Restart, [])) := by
  constructor
  · intro a; rfl
  · intro a fuel f hp hget hle
    have hs : ({ a.Restart with
        accumMillis := a.Restart.accumMillis + 0 } : Animation)
        = a.Restart := by
      cases a
      simp [Animation.Restart]
    rw [Animation.Update, if_neg (by simp [Animation.Restart, hp]), hs]
    exact updateLoop_exit fuel a.Restart f hget hle

/-- C5 witness: with only 1 banked millisecond against a 1-millisecond
frame 0, restarting c5W and advancing by zero changes nothing. -/
theorem restart_resets_index_only_check :
    (c5W.Restart).Update 0 3 = some (.ok (c5W.Restart, [])) :=
  restart_resets_index_only.2 c5W 2 ⟨0, 1⟩ rfl rfl (by decide)

/-- C6 counterexample: c6A has a valid non-empty current tag, yet its
single frame's zero duration makes every update call with a positive delta
loop forever: no amount of fuel completes the call. -/
theorem zero_duration_never_terminates :
    ¬ ∃ (fuel : Nat) (res : GoResult (Animation × List IterEv)),
      c6A.Update 5 fuel = some res := by
  have key : ∀ fuel, updateLoop fuel c6S = none := by
    intro fuel
    induction fuel with
    | zero => rfl
    | succ n ih =>
        have hstep : updateLoop (n + 1) c6S =
            (updateLoop n c6S).map (consEv ⟨"", 0, false, false⟩) := rfl
        rw [hstep, ih]
        rfl
  rintro ⟨fuel, res, hres⟩
  rw [Animation.Update, if_neg (by decide)] at hres
  rw [show ({ c6A with accumMillis := c6A.accumMillis + 5 } : Animation)
      = c6S from rfl] at hres
  rw [key fuel] at hres
  exact Option.noConfusion hres

/-- C6 (amended): when every frame duration in the tag table is positive,
every Update call terminates: some finite fuel makes the loop return,
because each iteration strictly reduces the accumulator while the loop
condition keeps it above a positive duration. -/
theorem update_terminates_pos_durations :
    ∀ (a : Animation) (delta : Int),
      (∀ t f, f ∈ a.framesByTagName t → 0 < f.DurationMillis) →
      ∃ (fuel : Nat) (res : GoResult (Animation × List IterEv)),
        a.Update delta fuel = some res := by
  intro a delta hpos
  by_cases hp : a.paused = true
  · exact ⟨1, .ok (a, []), by rw [Animation.Update, if_pos hp]⟩
  · have h := updateLoop_isSome ((a.accumMillis + delta).toNat + 1)
      { a with accumMillis := a.accumMillis + delta } hpos
      (Nat.lt_succ_self _)
    obtain ⟨res, hres⟩ := Option.isSome_iff_exists.mp h
    refine ⟨(a.accumMillis + delta).toNat + 1, res, ?_⟩
    rw [Animation.Update, if_neg hp]
    exact hres

/-- C6 witness: the all-positive-duration animation c6W terminates on a
12-millisecond update. -/
theorem update_terminates_pos_durations_check :
    ∃ (fuel : Nat) (res : GoResult (Animation × List IterEv)),
      c6W.Update 12 fuel = some res :=
  update_terminates_pos_durations c6W 12 (by
    intro t f hf
    simp [c6W] at hf
    rw [hf]
    decide)

/-- C7: a clone shares the frame table value, copies the callback table,
tag, frame index and paused flag, and zeroes the accumulated time; and
advancing the clone can only produce states still carrying the shared
frame table (the update loop never writes it), while the source value is
untouched by construction in this state-passing model. -/
theorem clone_shares_frames_resets_timing :
    ∀ a : Animation,
      (a.Clone =
        { paused := a.paused, framesByTagName := a.framesByTagName,
          currTag := a.currTag, currFrame := a.currFrame,
          accumMillis := 0, callbacks := a.callbacks }) ∧
      ∀ (delta : Int) (fuel : Nat) (r : Animation) (evs : List IterEv),
        (a.Clone).Update delta fuel = some (.ok (r, evs)) →
        r.framesByTagName = a.framesByTagName := by
  intro a
  refine ⟨rfl, ?_⟩
  intro delta fuel r evs h
  rw [Animation.Update] at h
  split at h
  · cases h
    rfl
  · exact (updateLoop_frames _ _ _ _ h).trans rfl

/-- C7 witness: advancing the clone of c7A by 15 milliseconds yields a
state whose frame table is still the source's. -/
theorem clone_shares_frames_resets_timing_check :
    c7Post.framesByTagName = c7A.framesByTagName :=
  (clone_shares_frames_resets_timing c7A).2 15 3 c7Post
    [⟨"", 0, false, false⟩] (by rfl)

/-- C8: first, any unpaused Update call that returns normally leaves the
frame index strictly inside the bounds of the sequence of whatever tag is
then current, even when callbacks retargeted the animation mid-loop (the
loop re-reads the tag, sequence and callback table from the live state on
every iteration); second, concretely, a callback that switches the run tag
to the walk tag makes the very same Update call consume the remaining
delta at walk's frame durations, ending inside walk's three-frame
sequence. -/
theorem callback_settag_rereads_state :
    (∀ (a : Animation) (delta : Int) (fuel : Nat) (r : Animation)
       (evs : List IterEv),
       a.paused = false →
       a.Update delta fuel = some (.ok (r, evs)) →
       r.currFrame < (r.framesByTagName r.currTag).length) ∧
    (c8A.Update 250 9 = some (.ok (c8Post, c8Evs)) ∧
     c8Post.currTag = "walk" ∧ c8Post.currFrame = 2 ∧
     c8Post.accumMillis = 40) := by
  constructor
  · intro a delta fuel r evs hp h
    rw [Animation.Update, if_neg (by simp [hp])] at h
    exact updateLoop_frame_lt _ _ _ _ h
  · exact ⟨by rfl, rfl, rfl, rfl⟩

/-- C8 witness: the in-bounds conclusion at the concrete retargeting run. -/
theorem callback_settag_rereads_state_check :
    c8Post.currFrame < (c8Post.framesByTagName c8Post.currTag).length :=
  callback_settag_rereads_state.1 c8A 250 9 c8Post c8Evs rfl (by rfl)

/-- C9: SetFrame errors exactly when the index is outside the current
tag's sequence bounds, leaves the state unchanged on that failure, and
otherwise sets the frame index (marking the animation for redraw) with no
error. -/
theorem setFrame_spec :
    ∀ (a : Animation2) (idx : Int),
      ((a.SetFrame idx).1.isSome ↔
        (idx < 0 ∨ ((a.FramesByTagName a.currTag).length : Int) ≤ idx)) ∧
      ((a.SetFrame idx).1.isSome → (a.SetFrame idx).2 = a) ∧
      ((a.SetFrame idx).1 = none →
        (a.SetFrame idx).2 =
          { a with needsDraw := true, currFrame := idx }) := by
  intro a idx
  unfold Animation2.SetFrame
  by_cases h : idx < 0 ∨ ((a.FramesByTagName a.currTag).length : Int) ≤ idx
  · rw [if_pos h]
    exact ⟨by simpa using h, fun _ => rfl, fun hc => Option.noConfusion hc⟩
  · rw [if_neg h]
    exact ⟨by simpa using h, fun hs => by simp at hs, fun _ => rfl⟩

/-- C9 witness: index 5 is out of bounds for a2demo's two-frame sequence,
and the failing call leaves the state unchanged. -/
theorem setFrame_spec_check : (a2demo.SetFrame 5).2 = a2demo :=
  (setFrame_spec a2demo 5).2.1 (by rfl)

/-- C10: NewAnimation maps the nil table to nil, and any non-nil table to
an unpaused instance on the empty tag at frame 0 with no registered
callbacks (and a zero accumulator). -/
theorem newAnimation_defaults :
    NewAnimation none = none ∧
    ∀ m : String → List Frame,
      NewAnimation (some m) =
        some { paused := false, framesByTagName := m, currTag := "",
               currFrame := 0, accumMillis := 0,
               callbacks := fun _ => none } :=
  ⟨rfl, fun _ => rfl⟩

end Asebiten
